import Mathlib

/-!
# Shallow embedding of the scooter-contest solver

Embeds `src/bayesian_scooters/solver.py` and the deterministic part of
`src/bayesian_scooters/strategies.py`.

Tables (pandas DataFrames) are lists of rows; `consideration` values are
rationals (the Python code uses floats, but all arithmetic the claims touch
is exact). Pandas `groupby` keeps group keys in ascending order, and an
inner merge whose left operand is the aggregated key table preserves the
left key order with the right table's row order inside each key; that is
exactly what `flatMap` of the per-key row filter over the sorted key list
produces, so each pipeline stage is embedded that way.
-/

/-- One row of a company's proposal DataFrame
(columns `company, units, consideration, priority`). -/
structure Bid where
  company : String
  units : ℕ
  consideration : ℚ
  priority : ℕ
deriving DecidableEq

/-- One row of a long-form scenario table
(columns `scenario_id, company, priority, units, consideration`). -/
structure Row where
  scenario_id : ℕ
  company : String
  priority : ℕ
  units : ℕ
  consideration : ℚ
deriving DecidableEq

/-- `p.company.values[0]`: the company identifier of a proposal's first row.
The Python expression raises on an empty frame; the junk value "" is
returned here instead and never relied on for non-empty proposals. -/
def headCompany : List Bid → String
  | [] => ""
  | b :: _ => b.company

/-- `ProposalCleaner.add_null_proposals`: append to each proposal the null
row with 0 units, 0 consideration and priority `N + 1` (its company column
is the proposal's own company). -/
def add_null_proposals (proposals : List (List Bid)) : List (List Bid) :=
  proposals.map (fun p =>
    p ++ [{ company := headCompany p, units := 0, consideration := 0,
            priority := p.length + 1 }])

/-- `itertools.product`: Cartesian product of the given lists, enumerated
with the last factor iterating fastest. -/
def listProduct : List (List ℕ) → List (List ℕ)
  | [] => [[]]
  | l :: ls => l.flatMap (fun x => (listProduct ls).map (fun combo => x :: combo))

/-- The row of the concatenated augmented proposals matching a
`(company, priority)` join key (the merge key of `create_scenarios`).
`find?` keeps only the first match, so this embeds the pandas merge
faithfully exactly when the join keys are unique — distinct company names
and, per proposal, distinct priorities; on duplicate keys the real merge
fans out into one row per matching bid instead. Statements that depend on
row multiplicity therefore assume per-proposal priority uniqueness. -/
def lookupBid (bids : List Bid) (c : String) (q : ℕ) : Option Bid :=
  bids.find? (fun b => b.company == c && b.priority == q)

/-- One row of the long-form scenario table: scenario `i` assigns company
`c` its bid of priority `q`; `units`/`consideration` come from the merge
against the concatenated augmented proposals. The `none` branch is the
outer-merge row with missing right side (unreachable for well-formed
proposals, where every generated `(company, priority)` key matches). -/
def mkScenarioRow (bids : List Bid) (i : ℕ) (c : String) (q : ℕ) : Row :=
  match lookupBid bids c q with
  | some b => { scenario_id := i, company := c, priority := q,
                units := b.units, consideration := b.consideration }
  | none => { scenario_id := i, company := c, priority := q,
              units := 0, consideration := 0 }

/-- `ProposalCleaner.create_scenarios`: augment with the null proposals,
take the Cartesian product of the priority columns (`scenario_id` is the
0-based product-enumeration index), melt to long form (column-major: all
scenarios of the first participant, then the second, ...), and merge with
the concatenated proposals on `(company, priority)` to recover
`units`/`consideration`. Row order of the final pandas outer merge (sorted
by join key) is not reproduced; every property proved below is
order-insensitive. -/
def create_scenarios (proposals : List (List Bid)) : List Row :=
  let participants := proposals.map headCompany
  let aug := add_null_proposals proposals
  let allBids := aug.flatten
  let combos := listProduct (aug.map (fun p => p.map (fun b => b.priority)))
  participants.enum.flatMap (fun jc =>
    combos.enum.map (fun icombo =>
      mkScenarioRow allBids icombo.1 jc.2 (icombo.2.getD jc.1 0)))

/-- `wasserstein_to_uniform`: normalize `p` and return its Wasserstein
distance to the discrete uniform vector of the same length. For two
`n`-point samples with equal weights scipy's `wasserstein_distance` is
`(1/n) * Σ |sort u - sort v|`; against the constant sample `1/n` the
sorting is immaterial, giving `(1/n) * Σ |p i / p.sum - 1/n|`. -/
def wasserstein_to_uniform (p : List ℚ) : ℚ :=
  let n : ℚ := p.length
  ((p.map (fun x => |x / p.sum - 1 / n|)).sum) / n

/-- The rows of scenario `i` (in input order): the right side of each
stage's merge back on `scenario_id`. -/
def rowsOf (t : List Row) (i : ℕ) : List Row :=
  t.filter (fun r => r.scenario_id == i)

/-- The distinct `scenario_id` group keys in ascending order, as pandas
`groupby` produces them. -/
def sortedIds (t : List Row) : List ℕ :=
  List.insertionSort (fun a b => a ≤ b) ((t.map (fun r => r.scenario_id)).dedup)

/-- `scenarios.scenario_id.nunique()`. -/
def nuniqueIds (t : List Row) : ℕ :=
  ((t.map (fun r => r.scenario_id)).dedup).length

/-- `groupby("scenario_id").agg({"units": sum})` for one group key. -/
def unitsSum (t : List Row) (i : ℕ) : ℕ :=
  ((rowsOf t i).map (fun r => r.units)).sum

/-- Python's `max` over the aggregated column of a nonempty groupby result
(the `[]` case never arises there). -/
def listMax {α : Type} [LinearOrder α] [Inhabited α] : List α → α
  | [] => default
  | [x] => x
  | x :: y :: xs => max x (listMax (y :: xs))

/-- Python's `min` over the aggregated column of a nonempty groupby result
(the `[]` case never arises there). -/
def listMin {α : Type} [LinearOrder α] [Inhabited α] : List α → α
  | [] => default
  | [x] => x
  | x :: y :: xs => min x (listMin (y :: xs))

/-- `ContestOptimizer.filter_number_units`: keep the scenarios whose total
units do not exceed 70, then merge back to recover their rows. -/
def filter_number_units (t : List Row) : List Row :=
  ((sortedIds t).filter (fun i => unitsSum t i ≤ 70)).flatMap
    (fun i => rowsOf t i)

/-- Per-scenario `total_consideration`: the sum over the scenario's rows of
`units * consideration`. -/
def scenarioValue (t : List Row) (i : ℕ) : ℚ :=
  ((rowsOf t i).map (fun r => (r.units : ℚ) * r.consideration)).sum

/-- The global maximum of the per-scenario total considerations
(`df.total_consideration.max()`). -/
def maxValue (t : List Row) : ℚ :=
  listMax ((sortedIds t).map (scenarioValue t))

/-- `ContestOptimizer.optimize_consideration`: keep the scenarios whose
total consideration equals the global maximum, then merge back. -/
def optimize_consideration (t : List Row) : List Row :=
  ((sortedIds t).filter (fun i => decide (scenarioValue t i = maxValue t))).flatMap
    (fun i => rowsOf t i)

/-- `agg({"priority": lambda x: x[x == 1].sum()})` for one group key: the
sum of the scenario's priority entries equal to 1 (equivalently, the number
of its priority-1 rows). -/
def priorityOnes (t : List Row) (i : ℕ) : ℕ :=
  (((rowsOf t i).map (fun r => r.priority)).filter (fun x => x == 1)).sum

/-- The maximum per-scenario count of priority-1 rows (`mas_unos`). -/
def maxOnes (t : List Row) : ℕ :=
  listMax ((sortedIds t).map (priorityOnes t))

/-- `ContestOptimizer.break_tie_priority`: no-op when one scenario remains,
else keep the scenarios with the most priority-1 proposals. -/
def break_tie_priority (t : List Row) : List Row :=
  if nuniqueIds t = 1 then t
  else
    ((sortedIds t).filter (fun i => priorityOnes t i == maxOnes t)).flatMap
      (fun i => rowsOf t i)

/-- `agg({"units": wasserstein_to_uniform})` for one group key: the
distance of the scenario's units column to the uniform vector. -/
def entropyDist (t : List Row) (i : ℕ) : ℚ :=
  wasserstein_to_uniform ((rowsOf t i).map (fun r => (r.units : ℚ)))

/-- The minimum per-scenario distance to uniform (`min_wd`). -/
def minDist (t : List Row) : ℚ :=
  listMin ((sortedIds t).map (entropyDist t))

/-- `ContestOptimizer.break_tie_entropy`: no-op when one scenario remains,
else keep the scenarios whose units vector is closest to uniform. -/
def break_tie_entropy (t : List Row) : List Row :=
  if nuniqueIds t = 1 then t
  else
    ((sortedIds t).filter (fun i => decide (entropyDist t i = minDist t))).flatMap
      (fun i => rowsOf t i)

/-- `ContestOptimizer.optimize`: the four stages in fixed order. -/
def optimize (S : List Row) : List Row :=
  break_tie_entropy (break_tie_priority (optimize_consideration (filter_number_units S)))

/-- `CustomScooterCompany.bid`: the deterministic proposal of a custom
company, priorities `1..N` in the order given. The Python code asserts
that `units` and `consideration` have equal length; `zip` realizes the
frame only for inputs satisfying that assertion. -/
def customBid (name : String) (units : List ℕ) (consideration : List ℚ) : List Bid :=
  (units.zip consideration).enum.map (fun iuc =>
    { company := name, units := iuc.2.1, consideration := iuc.2.2,
      priority := iuc.1 + 1 })

/-- `Contest` state after `__init__` has collected the proposals:
the bids are fixed and `optimal` caches the winner table (`None` until the
first `get_winners` call). -/
structure Contest where
  proposals : List (List Bid)
  optimal : Option (List Row)
deriving DecidableEq

/-- A freshly constructed contest: proposals received, no cached result. -/
def Contest.init (proposals : List (List Bid)) : Contest :=
  { proposals := proposals, optimal := none }

/-- `Contest.get_winners`: return the cached result if present, otherwise
clean, optimize, cache and return. The returned pair is the result together
with the contest state after the call. -/
def Contest.get_winners (c : Contest) : List Row × Contest :=
  match c.optimal with
  | some t => (t, c)
  | none =>
    let t := optimize (create_scenarios c.proposals)
    (t, { c with optimal := some t })

/-- The winner table of a fresh contest with the given proposals. -/
def contest_winners (proposals : List (List Bid)) : List Row :=
  ((Contest.init proposals).get_winners).1

/-- Well-formedness of a list of proposals, as assumed by the spec: at
least one participant, no empty proposal, pairwise distinct company names,
a constant company column per proposal, and priorities within `1..N`. -/
def WellFormed (ps : List (List Bid)) : Prop :=
  ps ≠ [] ∧
  (∀ p ∈ ps, p ≠ []) ∧
  (ps.map headCompany).Nodup ∧
  (∀ p ∈ ps, ∀ b ∈ p, b.company = headCompany p) ∧
  (∀ p ∈ ps, ∀ b ∈ p, 1 ≤ b.priority ∧ b.priority ≤ p.length)

instance (ps : List (List Bid)) : Decidable (WellFormed ps) := by
  unfold WellFormed
  infer_instance

/-- Concrete table for the capacity example: scenario 1 sums to 75 units,
scenario 2 to 65. -/
def exCapacity : List Row :=
  [⟨1, "a", 1, 40, 1⟩, ⟨1, "b", 1, 35, 1⟩,
   ⟨2, "a", 2, 30, 1⟩, ⟨2, "b", 2, 35, 1⟩]

/-- Concrete table for the consideration example: per-scenario total values
600, 30 and 600 for scenarios 1, 2, 3. -/
def exValue : List Row :=
  [⟨1, "a", 1, 20, 30⟩, ⟨2, "a", 2, 10, 3⟩, ⟨3, "a", 3, 30, 20⟩]

/-- Concrete table for the priority tie-break example: scenario 1 has two
priority-1 rows, scenario 2 one, scenario 3 none. -/
def exPriority : List Row :=
  [⟨1, "a", 1, 5, 1⟩, ⟨1, "b", 1, 5, 1⟩,
   ⟨2, "a", 1, 5, 1⟩, ⟨2, "b", 2, 5, 1⟩,
   ⟨3, "a", 2, 5, 1⟩, ⟨3, "b", 3, 5, 1⟩]

/-- Concrete table for the entropy tie-break example: scenario 1 has units
`[1, 1, 1]` (uniform), scenario 2 has units `[1, 7]` (skewed). -/
def exEntropy : List Row :=
  [⟨1, "a", 1, 1, 1⟩, ⟨1, "b", 1, 1, 1⟩, ⟨1, "c", 1, 1, 1⟩,
   ⟨2, "a", 2, 1, 1⟩, ⟨2, "b", 2, 7, 1⟩]

/-- Concrete over-capacity contest: a single company whose only real bid is
80 units, which exceeds the 70-unit capacity on its own. -/
def exOverCapacity : List (List Bid) :=
  [[⟨"a", 80, 1, 1⟩]]

/-! ## Lemmas about group keys and the merge-back pattern -/

lemma mem_sortedIds {t : List Row} {i : ℕ} :
    i ∈ sortedIds t ↔ ∃ r ∈ t, r.scenario_id = i := by
  rw [sortedIds, (List.perm_insertionSort _ _).mem_iff, List.mem_dedup, List.mem_map]

lemma mem_rowsOf {t : List Row} {i : ℕ} {r : Row} :
    r ∈ rowsOf t i ↔ r ∈ t ∧ r.scenario_id = i := by
  simp [rowsOf, List.mem_filter]

lemma mem_flatMap_rowsOf {t : List Row} {ids : List ℕ} {r : Row} :
    r ∈ ids.flatMap (fun i => rowsOf t i) ↔ r ∈ t ∧ r.scenario_id ∈ ids := by
  rw [List.mem_flatMap]
  constructor
  · rintro ⟨i, hi, hr⟩
    rcases mem_rowsOf.1 hr with ⟨hrt, hid⟩
    exact ⟨hrt, hid ▸ hi⟩
  · rintro ⟨hrt, hid⟩
    exact ⟨r.scenario_id, hid, mem_rowsOf.2 ⟨hrt, rfl⟩⟩

lemma listMax_mem {α : Type} [LinearOrder α] [Inhabited α] {l : List α} (h : l ≠ []) :
    listMax l ∈ l := by
  induction l with
  | nil => exact absurd rfl h
  | cons x xs ih =>
    cases xs with
    | nil => simp [listMax]
    | cons y ys =>
      rw [listMax]
      rcases max_choice x (listMax (y :: ys)) with h1 | h1
      · rw [h1]; exact List.mem_cons_self _ _
      · rw [h1]; exact List.mem_cons_of_mem _ (ih (by simp))

lemma le_listMax {α : Type} [LinearOrder α] [Inhabited α] {l : List α} {x : α}
    (h : x ∈ l) : x ≤ listMax l := by
  induction l with
  | nil => simp at h
  | cons a as ih =>
    cases as with
    | nil =>
      rw [List.mem_singleton] at h
      simp [listMax, h]
    | cons b bs =>
      rw [listMax]
      rcases List.mem_cons.1 h with rfl | h2
      · exact le_max_left _ _
      · exact le_trans (ih h2) (le_max_right _ _)

lemma listMin_mem {α : Type} [LinearOrder α] [Inhabited α] {l : List α} (h : l ≠ []) :
    listMin l ∈ l := by
  induction l with
  | nil => exact absurd rfl h
  | cons x xs ih =>
    cases xs with
    | nil => simp [listMin]
    | cons y ys =>
      rw [listMin]
      rcases min_choice x (listMin (y :: ys)) with h1 | h1
      · rw [h1]; exact List.mem_cons_self _ _
      · rw [h1]; exact List.mem_cons_of_mem _ (ih (by simp))

lemma listMin_le {α : Type} [LinearOrder α] [Inhabited α] {l : List α} {x : α}
    (h : x ∈ l) : listMin l ≤ x := by
  induction l with
  | nil => simp at h
  | cons a as ih =>
    cases as with
    | nil =>
      rw [List.mem_singleton] at h
      simp [listMin, h]
    | cons b bs =>
      rw [listMin]
      rcases List.mem_cons.1 h with rfl | h2
      · exact min_le_left _ _
      · exact le_trans (min_le_right _ _) (ih h2)

lemma sortedIds_ne_nil {t : List Row} (h : t ≠ []) : sortedIds t ≠ [] := by
  obtain ⟨r, hr⟩ := List.exists_mem_of_ne_nil t h
  exact List.ne_nil_of_mem (mem_sortedIds.2 ⟨r, hr, rfl⟩)

lemma rowsOf_ne_nil {t : List Row} {i : ℕ} (h : i ∈ sortedIds t) : rowsOf t i ≠ [] := by
  rcases mem_sortedIds.1 h with ⟨r, hrt, hid⟩
  exact List.ne_nil_of_mem (mem_rowsOf.2 ⟨hrt, hid⟩)

lemma flatMap_rowsOf_ne_nil {t : List Row} {ids : List ℕ} {p : ℕ → Bool} {i : ℕ}
    (hi : i ∈ ids) (hp : p i = true) (hne : rowsOf t i ≠ []) :
    (ids.filter p).flatMap (fun j => rowsOf t j) ≠ [] := by
  obtain ⟨r, hr⟩ := List.exists_mem_of_ne_nil _ hne
  exact List.ne_nil_of_mem (List.mem_flatMap.2 ⟨i, List.mem_filter.2 ⟨hi, hp⟩, hr⟩)

lemma filter_number_units_ne_nil {t : List Row} {i : ℕ}
    (hi : i ∈ sortedIds t) (hle : unitsSum t i ≤ 70) :
    filter_number_units t ≠ [] := by
  unfold filter_number_units
  exact flatMap_rowsOf_ne_nil hi (by simpa using hle) (rowsOf_ne_nil hi)

lemma optimize_consideration_ne_nil {t : List Row} (h : t ≠ []) :
    optimize_consideration t ≠ [] := by
  have hids : sortedIds t ≠ [] := sortedIds_ne_nil h
  have hmem : maxValue t ∈ (sortedIds t).map (scenarioValue t) :=
    listMax_mem (by simpa using hids)
  rcases List.mem_map.1 hmem with ⟨i, hi, hfi⟩
  unfold optimize_consideration
  exact flatMap_rowsOf_ne_nil hi (by simp [hfi]) (rowsOf_ne_nil hi)

lemma break_tie_priority_ne_nil {t : List Row} (h : t ≠ []) :
    break_tie_priority t ≠ [] := by
  unfold break_tie_priority
  split
  · exact h
  · have hids : sortedIds t ≠ [] := sortedIds_ne_nil h
    have hmem : maxOnes t ∈ (sortedIds t).map (priorityOnes t) :=
      listMax_mem (by simpa using hids)
    rcases List.mem_map.1 hmem with ⟨i, hi, hfi⟩
    exact flatMap_rowsOf_ne_nil hi (by simp [hfi]) (rowsOf_ne_nil hi)

lemma break_tie_entropy_ne_nil {t : List Row} (h : t ≠ []) :
    break_tie_entropy t ≠ [] := by
  unfold break_tie_entropy
  split
  · exact h
  · have hids : sortedIds t ≠ [] := sortedIds_ne_nil h
    have hmem : minDist t ∈ (sortedIds t).map (entropyDist t) :=
      listMin_mem (by simpa using hids)
    rcases List.mem_map.1 hmem with ⟨i, hi, hfi⟩
    exact flatMap_rowsOf_ne_nil hi (by simp [hfi]) (rowsOf_ne_nil hi)

lemma optimize_ne_nil {t : List Row} (h : ∃ i ∈ sortedIds t, unitsSum t i ≤ 70) :
    optimize t ≠ [] := by
  rcases h with ⟨i, hi, hle⟩
  exact break_tie_entropy_ne_nil (break_tie_priority_ne_nil
    (optimize_consideration_ne_nil (filter_number_units_ne_nil hi hle)))

lemma mem_keep_iff {t : List Row} {p : ℕ → Bool} {r : Row} :
    r ∈ ((sortedIds t).filter p).flatMap (fun i => rowsOf t i) ↔
      r ∈ t ∧ p r.scenario_id = true := by
  rw [mem_flatMap_rowsOf, List.mem_filter]
  constructor
  · rintro ⟨hrt, _, hp⟩
    exact ⟨hrt, hp⟩
  · rintro ⟨hrt, hp⟩
    exact ⟨hrt, mem_sortedIds.2 ⟨r, hrt, rfl⟩, hp⟩

/-- C2: `filter_number_units` retains exactly the rows of the scenario_ids
whose units sum to at most 70 and drops every other row; on the concrete
table with scenario 1 summing to 75 and scenario 2 summing to 65, only
scenario 2 survives. -/
theorem filter_number_units_spec :
    (∀ (t : List Row) (r : Row),
      r ∈ filter_number_units t ↔ r ∈ t ∧ unitsSum t r.scenario_id ≤ 70) ∧
    sortedIds (filter_number_units exCapacity) = [2] := by
  constructor
  · intro t r
    unfold filter_number_units
    rw [mem_keep_iff]
    simp
  · norm_num [filter_number_units, exCapacity, sortedIds, unitsSum, rowsOf,
      List.dedup, List.insertionSort, List.orderedInsert]

/-- C3: `optimize_consideration` retains exactly the rows of the
scenario_ids whose total units-times-consideration equals the global
maximum, preserving ties; on the concrete table with per-scenario values
600, 30 and 600 for scenarios 1, 2, 3, the surviving set is exactly
`{1, 3}`. -/
theorem optimize_consideration_spec :
    (∀ (t : List Row) (r : Row),
      r ∈ optimize_consideration t ↔
        r ∈ t ∧ scenarioValue t r.scenario_id = maxValue t) ∧
    sortedIds (optimize_consideration exValue) = [1, 3] := by
  constructor
  · intro t r
    unfold optimize_consideration
    rw [mem_keep_iff]
    simp
  · have hids : sortedIds exValue = [1, 2, 3] := by decide
    have h1 : scenarioValue exValue 1 = 600 := by
      norm_num [scenarioValue, rowsOf, exValue]
    have h2 : scenarioValue exValue 2 = 30 := by
      norm_num [scenarioValue, rowsOf, exValue]
    have h3 : scenarioValue exValue 3 = 600 := by
      norm_num [scenarioValue, rowsOf, exValue]
    have hmax : maxValue exValue = 600 := by
      rw [maxValue, hids]
      rw [List.map_cons, List.map_cons, List.map_cons, List.map_nil,
        h1, h2, h3, listMax, listMax, listMax]
      norm_num [max_def]
    rw [optimize_consideration, hids, hmax]
    rw [List.filter_cons, List.filter_cons, List.filter_cons, List.filter_nil]
    norm_num [h1, h2, h3]
    decide

/-- C9: `get_winners` is memoized and idempotent: the first call on a fresh
contest computes `optimize` of `create_scenarios` and caches it; the second
call returns exactly the same table and leaves the contest state unchanged. -/
theorem get_winners_memoized (ps : List (List Bid)) :
    ((Contest.init ps).get_winners).1 = optimize (create_scenarios ps) ∧
    (((Contest.init ps).get_winners).2).optimal =
      some (((Contest.init ps).get_winners).1) ∧
    (((Contest.init ps).get_winners).2).get_winners =
      (((Contest.init ps).get_winners).1, ((Contest.init ps).get_winners).2) :=
  by
  unfold Contest.get_winners Contest.init
  simp

lemma sum_eq_length_of_all_one {l : List ℕ} (h : ∀ x ∈ l, x = 1) :
    l.sum = l.length := by
  induction l with
  | nil => rfl
  | cons a as ih =>
    have ha := h a (List.mem_cons_self a as)
    have has := ih (fun x hx => h x (List.mem_cons_of_mem a hx))
    simp [ha, has]
    omega

lemma priorityOnes_eq_count (t : List Row) (i : ℕ) :
    priorityOnes t i = ((rowsOf t i).filter (fun r => r.priority == 1)).length := by
  unfold priorityOnes
  rw [List.filter_map]
  have hall : ∀ x ∈ ((rowsOf t i).filter
      ((fun x => x == 1) ∘ fun r => r.priority)).map (fun r => r.priority),
      x = 1 := by
    intro x hx
    rcases List.mem_map.1 hx with ⟨r, hr, hxr⟩
    have h2 := List.of_mem_filter hr
    simp only [Function.comp] at h2
    subst hxr
    simpa using h2
  rw [sum_eq_length_of_all_one hall, List.length_map]
  rfl

/-- C4: `break_tie_priority` is the identity when a single scenario_id
remains; otherwise it retains exactly the scenario_ids whose count of
priority-1 rows (computed in the code as the sum of the priority entries
equal to 1, which this theorem identifies with the count) is maximal; on
the concrete table where scenarios 1, 2, 3 have two, one and zero
priority-1 rows, only scenario 1 survives. -/
theorem break_tie_priority_spec :
    (∀ t : List Row, nuniqueIds t = 1 → break_tie_priority t = t) ∧
    (∀ (t : List Row) (i : ℕ),
      priorityOnes t i = ((rowsOf t i).filter (fun r => r.priority == 1)).length) ∧
    (∀ (t : List Row) (r : Row), nuniqueIds t ≠ 1 →
      (r ∈ break_tie_priority t ↔
        r ∈ t ∧ priorityOnes t r.scenario_id = maxOnes t)) ∧
    sortedIds (break_tie_priority exPriority) = [1] := by
  refine ⟨?_, priorityOnes_eq_count, ?_, ?_⟩
  · intro t h
    unfold break_tie_priority
    rw [if_pos h]
  · intro t r h
    unfold break_tie_priority
    rw [if_neg h, mem_keep_iff]
    simp
  · decide

/-- C5: `wasserstein_to_uniform` maps every normalizable non-negative
vector to a non-negative rational that vanishes exactly when the normalized
vector is the discrete uniform distribution over its length (`x / sum =
1 / n` for every entry, i.e. `x * n = sum`); and `break_tie_entropy`, when
more than one scenario_id remains, retains exactly the scenario_ids whose
units vector minimizes this distance — on the concrete table with units
`[1, 1, 1]` against `[1, 7]`, only the uniform scenario 1 survives. -/
theorem wasserstein_entropy_spec :
    (∀ p : List ℚ, p ≠ [] → (∀ x ∈ p, 0 ≤ x) → 0 < p.sum →
      0 ≤ wasserstein_to_uniform p ∧
      (wasserstein_to_uniform p = 0 ↔ ∀ x ∈ p, x * p.length = p.sum)) ∧
    (∀ (t : List Row) (r : Row), nuniqueIds t ≠ 1 →
      (r ∈ break_tie_entropy t ↔
        r ∈ t ∧ entropyDist t r.scenario_id = minDist t)) ∧
    sortedIds (break_tie_entropy exEntropy) = [1] := by
  refine ⟨?_, ?_, ?_⟩
  · intro p hne hnn hpos
    have hnlen : 0 < p.length := List.length_pos.2 hne
    have hn : (0:ℚ) < (p.length : ℚ) := by exact_mod_cast hnlen
    have hn0 : (p.length : ℚ) ≠ 0 := ne_of_gt hn
    have hS0 : p.sum ≠ 0 := ne_of_gt hpos
    have hterm : ∀ y ∈ p.map (fun x => |x / p.sum - 1 / (p.length : ℚ)|), 0 ≤ y := by
      intro y hy
      rcases List.mem_map.1 hy with ⟨x, _, hxy⟩
      exact hxy ▸ abs_nonneg _
    constructor
    · simp only [wasserstein_to_uniform]
      exact div_nonneg (List.sum_nonneg hterm) hn.le
    · simp only [wasserstein_to_uniform]
      rw [div_eq_zero_iff]
      constructor
      · rintro (hsum | hn')
        · intro x hx
          have hmem : |x / p.sum - 1 / (p.length : ℚ)| ∈
              p.map (fun x => |x / p.sum - 1 / (p.length : ℚ)|) :=
            List.mem_map_of_mem _ hx
          have hle := List.single_le_sum hterm _ hmem
          rw [hsum] at hle
          have h0 : |x / p.sum - 1 / (p.length : ℚ)| = 0 :=
            le_antisymm hle (abs_nonneg _)
          rw [abs_eq_zero, sub_eq_zero, div_eq_div_iff hS0 hn0, one_mul] at h0
          exact h0
        · exact absurd hn' hn0
      · intro hall
        left
        apply List.sum_eq_zero
        intro y hy
        rcases List.mem_map.1 hy with ⟨x, hx, hxy⟩
        have hx2 := hall x hx
        subst hxy
        rw [abs_eq_zero, sub_eq_zero, div_eq_div_iff hS0 hn0, one_mul]
        exact hx2
  · intro t r h
    unfold break_tie_entropy
    rw [if_neg h, mem_keep_iff]
    simp
  · have e1 : entropyDist exEntropy 1 = 0 := by
      norm_num [entropyDist, wasserstein_to_uniform, rowsOf, exEntropy]
    have e2 : entropyDist exEntropy 2 = 3/8 := by
      norm_num [entropyDist, wasserstein_to_uniform, rowsOf, exEntropy, abs]
    have hids : sortedIds exEntropy = [1, 2] := by decide
    have hmin : minDist exEntropy = 0 := by
      rw [minDist, hids, List.map_cons, List.map_cons, List.map_nil, e1, e2,
        listMin, listMin]
      norm_num [min_def]
    have hnu : nuniqueIds exEntropy ≠ 1 := by decide
    unfold break_tie_entropy
    rw [if_neg hnu]
    simp only [hids, hmin, e1, e2, List.filter_cons, List.filter_nil]
    norm_num
    decide

/-- Witness for `wasserstein_entropy_spec` at the vector `[1, 7]` and the
concrete entropy table. -/
theorem wasserstein_entropy_spec_witness :
    (0 ≤ wasserstein_to_uniform [1, 7] ∧
      (wasserstein_to_uniform [1, 7] = 0 ↔
        ∀ x ∈ ([1, 7] : List ℚ), x * (([1, 7] : List ℚ).length : ℚ) =
          ([1, 7] : List ℚ).sum)) ∧
    ((⟨1, "a", 1, 1, 1⟩ : Row) ∈ break_tie_entropy exEntropy ↔
      (⟨1, "a", 1, 1, 1⟩ : Row) ∈ exEntropy ∧
        entropyDist exEntropy 1 = minDist exEntropy) :=
  ⟨wasserstein_entropy_spec.1 [1, 7] (by simp) (by norm_num) (by norm_num),
   wasserstein_entropy_spec.2.1 exEntropy ⟨1, "a", 1, 1, 1⟩ (by decide)⟩

/-- Witness for `break_tie_priority_spec`: the no-op case on a one-scenario
table and the membership case on the concrete priority table. -/
theorem break_tie_priority_spec_witness :
    break_tie_priority [⟨5, "a", 1, 3, 1⟩] = [⟨5, "a", 1, 3, 1⟩] ∧
    ((⟨1, "a", 1, 5, 1⟩ : Row) ∈ break_tie_priority exPriority ↔
      (⟨1, "a", 1, 5, 1⟩ : Row) ∈ exPriority ∧
        priorityOnes exPriority 1 = maxOnes exPriority) :=
  ⟨break_tie_priority_spec.1 [⟨5, "a", 1, 3, 1⟩] (by decide),
   break_tie_priority_spec.2.2.1 exPriority ⟨1, "a", 1, 5, 1⟩ (by decide)⟩

/-- C1: a contest with zero aggressive and zero neutral participants and a
single custom company bidding units `[35]` at consideration `[1.5]` has
exactly one winning scenario_id, and in the winner table the custom
company is credited with 35 units. -/
theorem single_custom_contest_winner :
    nuniqueIds (contest_winners [customBid "acme" [35] [3/2]]) = 1 ∧
    (((contest_winners [customBid "acme" [35] [3/2]]).filter
        (fun r => r.company == "acme")).map (fun r => r.units)).sum = 35 := by
  have hw : contest_winners [customBid "acme" [35] [3/2]] =
      [⟨0, "acme", 1, 35, 3/2⟩] := by
    have hT : create_scenarios [customBid "acme" [35] [3/2]] =
        [⟨0, "acme", 1, 35, 3/2⟩, ⟨1, "acme", 2, 0, 0⟩] := by rfl
    have hF : filter_number_units [⟨0, "acme", 1, 35, 3/2⟩, ⟨1, "acme", 2, 0, 0⟩] =
        [⟨0, "acme", 1, 35, 3/2⟩, ⟨1, "acme", 2, 0, 0⟩] := by rfl
    have hids : sortedIds [⟨0, "acme", 1, 35, 3/2⟩, ⟨1, "acme", 2, 0, 0⟩] =
        [0, 1] := by rfl
    have hv0 : scenarioValue [⟨0, "acme", 1, 35, 3/2⟩, ⟨1, "acme", 2, 0, 0⟩] 0 =
        105/2 := by
      norm_num [scenarioValue, rowsOf]
    have hv1 : scenarioValue [⟨0, "acme", 1, 35, 3/2⟩, ⟨1, "acme", 2, 0, 0⟩] 1 =
        0 := by
      norm_num [scenarioValue, rowsOf]
    have hmax : maxValue [⟨0, "acme", 1, 35, 3/2⟩, ⟨1, "acme", 2, 0, 0⟩] =
        105/2 := by
      rw [maxValue, hids, List.map_cons, List.map_cons, List.map_nil, hv0, hv1,
        listMax, listMax]
      norm_num [max_def]
    have hO : optimize_consideration
        [⟨0, "acme", 1, 35, 3/2⟩, ⟨1, "acme", 2, 0, 0⟩] =
        [⟨0, "acme", 1, 35, 3/2⟩] := by
      unfold optimize_consideration
      simp only [hids, hmax, hv0, hv1, List.filter_cons, List.filter_nil]
      norm_num
      rfl
    have hP : break_tie_priority [⟨0, "acme", 1, 35, 3/2⟩] =
        [⟨0, "acme", 1, 35, 3/2⟩] := by rfl
    have hE : break_tie_entropy [⟨0, "acme", 1, 35, 3/2⟩] =
        [⟨0, "acme", 1, 35, 3/2⟩] := by rfl
    show optimize (create_scenarios [customBid "acme" [35] [3/2]]) =
      [⟨0, "acme", 1, 35, 3/2⟩]
    rw [optimize, hT, hF, hO, hP, hE]
  rw [hw]
  decide

/-- C7: `add_null_proposals` maps each proposal to the same rows in the
same order followed by exactly one synthetic row with units 0,
consideration 0, priority `N + 1` and the proposal's own company name
(no input is mutated: the function builds new lists); consequently the
minimum units value of every augmented proposal is 0 and the sum of the
per-company minima is 0. -/
theorem add_null_proposals_spec (ps : List (List Bid)) :
    (add_null_proposals ps).length = ps.length ∧
    (∀ q ∈ add_null_proposals ps, ∃ p ∈ ps,
      q = p ++ [⟨headCompany p, 0, 0, p.length + 1⟩] ∧
      q.take p.length = p ∧
      q.length = p.length + 1 ∧
      q.getLast? = some ⟨headCompany p, 0, 0, p.length + 1⟩) ∧
    (∀ q ∈ add_null_proposals ps, listMin (q.map (fun b => b.units)) = 0) ∧
    ((add_null_proposals ps).map (fun q => listMin (q.map (fun b => b.units)))).sum
      = 0 := by
  have hmin : ∀ q ∈ add_null_proposals ps, listMin (q.map (fun b => b.units)) = 0 := by
    intro q hq
    rcases List.mem_map.1 hq with ⟨p, hp, rfl⟩
    have h0 : (0:ℕ) ∈
        ((p ++ [(⟨headCompany p, 0, 0, p.length + 1⟩ : Bid)]).map
          (fun b => b.units)) := by
      simp
    have hle := listMin_le h0
    omega
  refine ⟨by simp [add_null_proposals], ?_, hmin, ?_⟩
  · intro q hq
    rcases List.mem_map.1 hq with ⟨p, hp, rfl⟩
    exact ⟨p, hp, rfl, List.take_left _ _, by simp, List.getLast?_concat _⟩
  · apply List.sum_eq_zero
    intro y hy
    rcases List.mem_map.1 hy with ⟨q, hq, rfl⟩
    exact hmin q hq

/-- Witness for `add_null_proposals_spec`: the augmented single proposal
of company "a" has minimum units 0. -/
theorem add_null_proposals_spec_witness :
    listMin (((add_null_proposals [[⟨"a", 5, 1, 1⟩]]).getD 0 []).map
      (fun b => b.units)) = 0 :=
  (add_null_proposals_spec [[⟨"a", 5, 1, 1⟩]]).2.2.1 _
    (by simp [add_null_proposals, headCompany])

lemma over_capacity_winners_eq :
    contest_winners exOverCapacity = [⟨1, "a", 2, 0, 0⟩] := by
  have hT : create_scenarios exOverCapacity =
      [⟨0, "a", 1, 80, 1⟩, ⟨1, "a", 2, 0, 0⟩] := by rfl
  have hF : filter_number_units [⟨0, "a", 1, 80, 1⟩, ⟨1, "a", 2, 0, 0⟩] =
      [⟨1, "a", 2, 0, 0⟩] := by rfl
  have hids : sortedIds [(⟨1, "a", 2, 0, 0⟩ : Row)] = [1] := by rfl
  have hv : scenarioValue [(⟨1, "a", 2, 0, 0⟩ : Row)] 1 = 0 := by
    norm_num [scenarioValue, rowsOf]
  have hmax : maxValue [(⟨1, "a", 2, 0, 0⟩ : Row)] = 0 := by
    rw [maxValue, hids, List.map_cons, List.map_nil, hv, listMax]
  have hO : optimize_consideration [(⟨1, "a", 2, 0, 0⟩ : Row)] =
      [⟨1, "a", 2, 0, 0⟩] := by
    unfold optimize_consideration
    simp only [hids, hmax, hv, List.filter_cons, List.filter_nil]
    norm_num
    rfl
  have hP : break_tie_priority [(⟨1, "a", 2, 0, 0⟩ : Row)] =
      [⟨1, "a", 2, 0, 0⟩] := by rfl
  have hE : break_tie_entropy [(⟨1, "a", 2, 0, 0⟩ : Row)] =
      [⟨1, "a", 2, 0, 0⟩] := by rfl
  show optimize (create_scenarios exOverCapacity) = [⟨1, "a", 2, 0, 0⟩]
  rw [optimize, hT, hF, hO, hP, hE]

/-- C8 counterexample: in the contest whose single company's only real bid
is 80 units (so every combination of real bids exceeds the 70-unit
capacity), `get_winners` does not return an empty table — refuting the
claim that such a contest yields an empty winner table. -/
theorem over_capacity_not_empty :
    contest_winners exOverCapacity ≠ [] := by
  rw [over_capacity_winners_eq]
  simp

/-- C8 amended: when every combination of real bids exceeds 70 units,
`get_winners` returns the all-decline scenario — every company credited 0
units through its synthetic null bid, which always passes
`filter_number_units` — rather than an empty table; each downstream stage
does map an empty table to an empty table. -/
theorem over_capacity_returns_all_decline :
    contest_winners exOverCapacity = [⟨1, "a", 2, 0, 0⟩] ∧
    (∀ r ∈ contest_winners exOverCapacity, r.units = 0) ∧
    filter_number_units [] = [] ∧
    optimize_consideration [] = [] ∧
    break_tie_priority [] = [] ∧
    break_tie_entropy [] = [] ∧
    optimize [] = [] := by
  refine ⟨over_capacity_winners_eq, ?_, rfl, rfl, rfl, rfl, rfl⟩
  intro r hr
  rw [over_capacity_winners_eq] at hr
  rcases List.mem_singleton.1 hr with rfl
  rfl

lemma mkScenarioRow_scenario_id (b : List Bid) (i : ℕ) (c : String) (q : ℕ) :
    (mkScenarioRow b i c q).scenario_id = i := by
  unfold mkScenarioRow
  cases lookupBid b c q <;> rfl

lemma mkScenarioRow_company (b : List Bid) (i : ℕ) (c : String) (q : ℕ) :
    (mkScenarioRow b i c q).company = c := by
  unfold mkScenarioRow
  cases lookupBid b c q <;> rfl

lemma listProduct_length (ls : List (List ℕ)) :
    (listProduct ls).length = (ls.map List.length).prod := by
  induction ls with
  | nil => rfl
  | cons l ls ih =>
    rw [listProduct, List.length_flatMap]
    have hmap : List.map (List.length ∘ fun x =>
        (listProduct ls).map (fun combo => x :: combo)) l =
        List.map (fun _ => (listProduct ls).length) l := by
      apply List.map_congr_left
      intro a _
      simp
    rw [hmap, List.map_const', List.sum_replicate, smul_eq_mul, ih,
      List.map_cons, List.prod_cons]

lemma filter_enumFrom_fst {α : Type} (d : α) (l : List α) (n i : ℕ) :
    (l.enumFrom n).filter (fun x => x.1 == i) =
      if n ≤ i ∧ i < n + l.length then [(i, l.getD (i - n) d)] else [] := by
  induction l generalizing n with
  | nil => simp
  | cons a as ih =>
    rw [List.enumFrom_cons, List.filter_cons]
    simp only [List.length_cons]
    by_cases hni : n = i
    · subst hni
      have hc : ((n, a).1 == n) = true := by simp
      rw [hc, if_pos rfl, ih (n + 1), if_neg (by omega), if_pos (by omega)]
      simp
    · have hc : ((n, a).1 == i) = false := by simpa using hni
      rw [hc]
      simp only [Bool.false_eq_true, if_false]
      rw [ih (n + 1)]
      by_cases hcond : n + 1 ≤ i ∧ i < n + 1 + as.length
      · rw [if_pos hcond, if_pos (by omega)]
        have h2 : i - n = (i - (n + 1)) + 1 := by omega
        rw [h2, List.getD_cons_succ]
      · rw [if_neg hcond, if_neg (by omega)]

lemma filter_enum_fst {α : Type} (d : α) (l : List α) (i : ℕ) :
    l.enum.filter (fun x => x.1 == i) =
      if i < l.length then [(i, l.getD i d)] else [] := by
  have h := filter_enumFrom_fst d l 0 i
  simpa using h

lemma mem_listProduct {xs : List ℕ} {ls : List (List ℕ)}
    (h : List.Forall₂ (fun x l => x ∈ l) xs ls) : xs ∈ listProduct ls := by
  induction h with
  | nil => simp [listProduct]
  | cons hx _ ih =>
    rw [listProduct]
    exact List.mem_flatMap.2 ⟨_, hx, List.mem_map_of_mem _ ih⟩

lemma priority_lists_eq (ps : List (List Bid)) :
    (add_null_proposals ps).map (fun p => p.map (fun b => b.priority)) =
      ps.map (fun p => p.map (fun b => b.priority) ++ [p.length + 1]) := by
  simp [add_null_proposals, List.map_map, Function.comp]

lemma all_null_mem_product (ps : List (List Bid)) :
    ps.map (fun p => p.length + 1) ∈
      listProduct ((add_null_proposals ps).map (fun p =>
        p.map (fun b => b.priority))) := by
  rw [priority_lists_eq]
  apply mem_listProduct
  rw [List.forall₂_map_left_iff, List.forall₂_map_right_iff, List.forall₂_same]
  intro p _
  exact List.mem_append_right _ (List.mem_singleton.2 rfl)

lemma lookup_null {ps : List (List Bid)}
    (hnd : (ps.map headCompany).Nodup)
    (hconst : ∀ p ∈ ps, ∀ b ∈ p, b.company = headCompany p)
    (hprio : ∀ p ∈ ps, ∀ b ∈ p, b.priority ≤ p.length)
    {p : List Bid} (hp : p ∈ ps) :
    lookupBid (add_null_proposals ps).flatten (headCompany p) (p.length + 1) =
      some ⟨headCompany p, 0, 0, p.length + 1⟩ := by
  induction ps with
  | nil => cases hp
  | cons q ps ih =>
    rw [add_null_proposals, List.map_cons, List.flatten_cons]
    rw [lookupBid, List.find?_append]
    rcases List.mem_cons.1 hp with rfl | hp2
    · have hq : List.find? (fun b =>
          b.company == headCompany p && b.priority == p.length + 1) p = none := by
        rw [List.find?_eq_none]
        intro b hb
        have hble := hprio p (List.mem_cons_self p ps) b hb
        simp only [Bool.and_eq_true, beq_iff_eq]
        rintro ⟨-, hbp⟩
        omega
      rw [List.find?_append, hq, Option.none_or]
      rw [List.find?_cons]
      simp
    · have hne : headCompany q ≠ headCompany p := by
        rw [List.map_cons, List.nodup_cons] at hnd
        intro heq
        exact hnd.1 (heq ▸ List.mem_map_of_mem headCompany hp2)
      have hblock : List.find? (fun b =>
          b.company == headCompany p && b.priority == p.length + 1)
          (q ++ [⟨headCompany q, 0, 0, q.length + 1⟩]) = none := by
        rw [List.find?_eq_none]
        intro b hb
        have hbc : b.company = headCompany q := by
          rcases List.mem_append.1 hb with hbq | hbnull
          · exact hconst q (List.mem_cons_self q ps) b hbq
          · rw [List.mem_singleton.1 hbnull]
        simp only [Bool.and_eq_true, beq_iff_eq]
        rintro ⟨hc, -⟩
        exact hne (hbc ▸ hc)
      rw [hblock, Option.none_or]
      have hnd2 : (ps.map headCompany).Nodup := by
        rw [List.map_cons, List.nodup_cons] at hnd
        exact hnd.2
      exact ih hnd2
        (fun r hr => hconst r (List.mem_cons_of_mem q hr))
        (fun r hr => hprio r (List.mem_cons_of_mem q hr)) hp2

lemma flatMap_congr_fun {α β : Type} {l : List α} {f g : α → List β}
    (h : ∀ a ∈ l, f a = g a) : l.flatMap f = l.flatMap g := by
  induction l with
  | nil => rfl
  | cons a as ih =>
    rw [List.flatMap_cons, List.flatMap_cons, h a (List.mem_cons_self a as),
      ih (fun x hx => h x (List.mem_cons_of_mem a hx))]

lemma flatMap_single {α β : Type} (l : List α) (g : α → β) :
    l.flatMap (fun a => [g a]) = l.map g := by
  induction l with
  | nil => rfl
  | cons a as ih => rw [List.flatMap_cons, ih]; rfl

lemma create_scenarios_eq (ps : List (List Bid)) :
    create_scenarios ps =
      (ps.map headCompany).enum.flatMap (fun jc =>
        (listProduct ((add_null_proposals ps).map (fun p =>
          p.map (fun b => b.priority)))).enum.map (fun icombo =>
          mkScenarioRow (add_null_proposals ps).flatten icombo.1 jc.2
            (icombo.2.getD jc.1 0))) := rfl

lemma combos_length_eq (ps : List (List Bid)) :
    (listProduct ((add_null_proposals ps).map (fun p =>
      p.map (fun b => b.priority)))).length =
      (ps.map (fun p => p.length + 1)).prod := by
  rw [listProduct_length, priority_lists_eq, List.map_map]
  congr 1
  apply List.map_congr_left
  intro p _
  simp

lemma rowsOf_create_scenarios (ps : List (List Bid)) (i : ℕ)
    (hi : i < (listProduct ((add_null_proposals ps).map (fun p =>
      p.map (fun b => b.priority)))).length) :
    rowsOf (create_scenarios ps) i =
      (ps.map headCompany).enum.map (fun jc =>
        mkScenarioRow (add_null_proposals ps).flatten i jc.2
          (((listProduct ((add_null_proposals ps).map (fun p =>
            p.map (fun b => b.priority)))).getD i []).getD jc.1 0)) := by
  rw [rowsOf, create_scenarios_eq, List.filter_flatMap]
  have hstep : ∀ jc ∈ (ps.map headCompany).enum,
      (((listProduct ((add_null_proposals ps).map (fun p =>
        p.map (fun b => b.priority)))).enum.map (fun icombo =>
          mkScenarioRow (add_null_proposals ps).flatten icombo.1 jc.2
            (icombo.2.getD jc.1 0))).filter (fun r => r.scenario_id == i)) =
      [mkScenarioRow (add_null_proposals ps).flatten i jc.2
        (((listProduct ((add_null_proposals ps).map (fun p =>
          p.map (fun b => b.priority)))).getD i []).getD jc.1 0)] := by
    intro jc _
    rw [List.filter_map]
    rw [List.filter_congr (q := fun x => x.1 == i) (fun x _ => by
      simp [Function.comp, mkScenarioRow_scenario_id])]
    rw [filter_enum_fst ([] : List ℕ), if_pos hi, List.map_cons, List.map_nil]
  rw [flatMap_congr_fun hstep, flatMap_single]

lemma all_decline_scenario {ps : List (List Bid)} (hwf : WellFormed ps) :
    ∃ i ∈ sortedIds (create_scenarios ps),
      unitsSum (create_scenarios ps) i = 0 ∧
      ∀ r ∈ rowsOf (create_scenarios ps) i, r.units = 0 := by
  obtain ⟨hne, hpne, hnd, hconst, hprio⟩ := hwf
  have hmem := all_null_mem_product ps
  rw [List.mem_iff_getElem?] at hmem
  obtain ⟨k, hk⟩ := hmem
  have hklt : k < (listProduct ((add_null_proposals ps).map (fun p =>
      p.map (fun b => b.priority)))).length :=
    (List.getElem?_eq_some_iff.1 hk).1
  have hgetD : (listProduct ((add_null_proposals ps).map (fun p =>
      p.map (fun b => b.priority)))).getD k [] =
      ps.map (fun p => p.length + 1) := by
    rw [List.getD_eq_getElem?_getD, hk]
    rfl
  have hrows := rowsOf_create_scenarios ps k hklt
  rw [hgetD] at hrows
  have hunits : ∀ r ∈ rowsOf (create_scenarios ps) k, r.units = 0 := by
    intro r hr
    rw [hrows] at hr
    rcases List.mem_map.1 hr with ⟨jc, hjc, hr2⟩
    rw [List.mem_enum_iff_getElem?, List.getElem?_map] at hjc
    obtain ⟨pj, hpj, hcj⟩ : ∃ pj, ps[jc.1]? = some pj ∧ headCompany pj = jc.2 := by
      cases hps : ps[jc.1]? with
      | none => rw [hps] at hjc; cases hjc
      | some pj =>
        rw [hps] at hjc
        exact ⟨pj, rfl, by simpa using hjc⟩
    have hpj_mem : pj ∈ ps := List.getElem?_mem hpj
    have hq : (ps.map (fun p => p.length + 1)).getD jc.1 0 = pj.length + 1 := by
      rw [List.getD_eq_getElem?_getD, List.getElem?_map, hpj]
      rfl
    rw [hq, ← hcj] at hr2
    rw [← hr2]
    unfold mkScenarioRow
    rw [lookup_null hnd hconst (fun p hp b hb => (hprio p hp b hb).2) hpj_mem]
  have hlen : 0 < (rowsOf (create_scenarios ps) k).length := by
    rw [hrows, List.length_map, List.enum_length, List.length_map]
    exact List.length_pos.2 hne
  obtain ⟨r, hr⟩ := List.exists_mem_of_ne_nil _ (List.length_pos.1 hlen)
  refine ⟨k, mem_sortedIds.2 ⟨r, (mem_rowsOf.1 hr).1, (mem_rowsOf.1 hr).2⟩, ?_,
    hunits⟩
  rw [unitsSum]
  apply List.sum_eq_zero
  intro y hy
  rcases List.mem_map.1 hy with ⟨r2, hr2, hyr⟩
  rw [← hyr, hunits r2 hr2]

lemma contest_winners_eq (ps : List (List Bid)) :
    contest_winners ps = optimize (create_scenarios ps) := by
  unfold contest_winners Contest.get_winners Contest.init
  simp

/-- C10: for every well-formed proposal list the cleaned scenario table
contains the all-decline scenario (every company on its synthetic null
bid, all units 0, total units 0); it always passes the 70-unit filter, so
`filter_number_units`, `optimize` and `Contest.get_winners` never return
an empty table. -/
theorem all_decline_guarantee (ps : List (List Bid)) (hwf : WellFormed ps) :
    (∃ i ∈ sortedIds (create_scenarios ps),
      unitsSum (create_scenarios ps) i = 0 ∧
      ∀ r ∈ rowsOf (create_scenarios ps) i, r.units = 0) ∧
    filter_number_units (create_scenarios ps) ≠ [] ∧
    optimize (create_scenarios ps) ≠ [] ∧
    contest_winners ps ≠ [] := by
  obtain ⟨i, hi, hsum, hall⟩ := all_decline_scenario hwf
  refine ⟨⟨i, hi, hsum, hall⟩, ?_, ?_, ?_⟩
  · exact filter_number_units_ne_nil hi (by omega)
  · exact optimize_ne_nil ⟨i, hi, by omega⟩
  · rw [contest_winners_eq]
    exact optimize_ne_nil ⟨i, hi, by omega⟩

/-- Witness for `all_decline_guarantee`: even a contest whose only real
bid is over capacity has a non-empty winner table. -/
theorem all_decline_guarantee_witness :
    contest_winners [[⟨"b", 80, 1, 1⟩]] ≠ [] :=
  (all_decline_guarantee [[⟨"b", 80, 1, 1⟩]] (by
    unfold WellFormed
    refine ⟨by simp, by simp, by simp, ?_, ?_⟩
    · intro p hp b hb
      rw [List.mem_singleton.1 hp] at hb
      rw [List.mem_singleton.1 hb, List.mem_singleton.1 hp]
      rfl
    · intro p hp b hb
      rw [List.mem_singleton.1 hp] at hb
      rw [List.mem_singleton.1 hb, List.mem_singleton.1 hp]
      exact ⟨le_refl 1, le_refl 1⟩)).2.2.2

lemma sum_ite_eq_countP {α : Type} (q : α → Prop) [DecidablePred q] (l : List α) :
    (l.map (fun a => if q a then 1 else 0)).sum =
      l.countP (fun a => decide (q a)) := by
  induction l with
  | nil => rfl
  | cons a as ih =>
    rw [List.map_cons, List.sum_cons, ih, List.countP_cons]
    by_cases h : q a
    · simp [h]
      omega
    · simp [h]

lemma create_scenarios_ids_map (ps : List (List Bid)) :
    (create_scenarios ps).map (fun r => r.scenario_id) =
      (ps.map headCompany).enum.flatMap (fun _ =>
        List.range ((listProduct ((add_null_proposals ps).map (fun p =>
          p.map (fun b => b.priority)))).length)) := by
  rw [create_scenarios_eq, List.map_flatMap]
  apply flatMap_congr_fun
  intro jc _
  rw [List.map_map]
  rw [List.map_congr_left (g := Prod.fst) (fun x _ => by
    simp [Function.comp, mkScenarioRow_scenario_id])]
  rw [List.enum_map_fst]

lemma ids_toFinset (ps : List (List Bid)) (hne : ps ≠ []) :
    ((create_scenarios ps).map (fun r => r.scenario_id)).toFinset =
      Finset.range ((ps.map (fun p => p.length + 1)).prod) := by
  rw [create_scenarios_ids_map]
  ext x
  simp only [List.mem_toFinset, List.mem_flatMap, List.mem_range,
    Finset.mem_range, combos_length_eq]
  constructor
  · rintro ⟨a, -, hx⟩
    exact hx
  · intro hx
    have hlen : 0 < ((ps.map headCompany).enum).length := by
      rw [List.enum_length, List.length_map]
      exact List.length_pos.2 hne
    obtain ⟨a, ha⟩ := List.exists_mem_of_ne_nil _ (List.length_pos.1 hlen)
    exact ⟨a, ha, hx⟩

lemma count_scenario_company (ps : List (List Bid)) {i : ℕ} {c : String}
    (hnd : (ps.map headCompany).Nodup)
    (hi : i < (ps.map (fun p => p.length + 1)).prod)
    (hc : c ∈ ps.map headCompany) :
    ((create_scenarios ps).filter (fun r =>
      r.scenario_id == i && r.company == c)).length = 1 := by
  have hilt : i < (listProduct ((add_null_proposals ps).map (fun p =>
      p.map (fun b => b.priority)))).length := by
    rw [combos_length_eq]
    exact hi
  rw [← List.countP_eq_length_filter, create_scenarios_eq, List.countP_flatMap]
  rw [List.map_congr_left (g := fun jc => if jc.2 = c then 1 else 0) ?hblock]
  case hblock =>
    intro jc _
    simp only [Function.comp]
    rw [List.countP_map]
    by_cases hc2 : jc.2 = c
    · rw [if_pos hc2]
      rw [List.countP_congr (q := fun x => x.1 == i) (fun x _ => by
        simp [Function.comp, mkScenarioRow_scenario_id, mkScenarioRow_company, hc2])]
      rw [List.countP_eq_length_filter, filter_enum_fst ([] : List ℕ),
        if_pos hilt]
      rfl
    · rw [if_neg hc2]
      rw [List.countP_congr (q := fun x => false) (fun x _ => by
        simp [Function.comp, mkScenarioRow_scenario_id, mkScenarioRow_company, hc2])]
      simp [List.countP_false]
  rw [sum_ite_eq_countP]
  have hsnd := List.countP_map (fun s => decide (s = c)) Prod.snd
    (List.map headCompany ps).enum
  rw [List.enum_map_snd] at hsnd
  rw [show (fun a : ℕ × String => decide (a.2 = c)) =
    ((fun s => decide (s = c)) ∘ Prod.snd) from rfl, ← hsnd]
  have hcount : (ps.map headCompany).countP (fun s => decide (s = c)) =
      (ps.map headCompany).count c := by
    rw [List.count_eq_countP]
    apply List.countP_congr
    intro x _
    simp
  rw [hcount]
  exact List.count_eq_one_of_mem hnd hc

/-- C6: for every well-formed proposal list — `WellFormed` plus the
spec's priority-uniqueness requirement ("priority is unique within a
company's bid set"), which makes all `(company, priority)` merge keys
unique so the pandas merge emits exactly one row per key —
`create_scenarios` produces exactly `(N_1 + 1) * ... * (N_k + 1)`
distinct scenario_ids, numbered 0-based — the scenario_id is by
construction the index into the `itertools.product` enumeration, which
iterates the last participant fastest — covering `0 .. P-1` with no gaps
(`toFinset = Finset.range P`), and every participating company appears in
exactly one row of every scenario_id (no omissions, no duplicates). -/
theorem create_scenarios_spec (ps : List (List Bid)) (hwf : WellFormed ps)
    (_hup : ∀ p ∈ ps, (p.map (fun b => b.priority)).Nodup) :
    ((create_scenarios ps).map (fun r => r.scenario_id)).toFinset =
      Finset.range ((ps.map (fun p => p.length + 1)).prod) ∧
    nuniqueIds (create_scenarios ps) = (ps.map (fun p => p.length + 1)).prod ∧
    (∀ i < (ps.map (fun p => p.length + 1)).prod, ∀ c ∈ ps.map headCompany,
      ((create_scenarios ps).filter (fun r =>
        r.scenario_id == i && r.company == c)).length = 1) := by
  obtain ⟨hne, -, hnd, -, -⟩ := hwf
  refine ⟨ids_toFinset ps hne, ?_, ?_⟩
  · rw [nuniqueIds, ← List.card_toFinset, ids_toFinset ps hne, Finset.card_range]
  · intro i hi c hc
    exact count_scenario_company ps hnd hi hc

/-- Witness for `create_scenarios_spec` on a two-company contest with one
real bid each: 4 scenarios, and company "a" appears exactly once in
scenario 0. -/
theorem create_scenarios_spec_witness :
    nuniqueIds (create_scenarios [[⟨"a", 2, 1, 1⟩], [⟨"b", 3, 1, 1⟩]]) =
      (([[⟨"a", 2, 1, 1⟩], [⟨"b", 3, 1, 1⟩]] : List (List Bid)).map
        (fun p => p.length + 1)).prod ∧
    ((create_scenarios [[⟨"a", 2, 1, 1⟩], [⟨"b", 3, 1, 1⟩]]).filter (fun r =>
      r.scenario_id == 0 && r.company == "a")).length = 1 := by
  have hwf : WellFormed [[⟨"a", 2, 1, 1⟩], [⟨"b", 3, 1, 1⟩]] := by decide
  have hup : ∀ p ∈ ([[⟨"a", 2, 1, 1⟩], [⟨"b", 3, 1, 1⟩]] : List (List Bid)),
      (p.map (fun b => b.priority)).Nodup := by decide
  exact ⟨(create_scenarios_spec _ hwf hup).2.1,
    (create_scenarios_spec _ hwf hup).2.2 0 (by decide) "a" (by decide)⟩
